import Mathlib

/-!
Verification of `kernel_cleaner.py` (nannouche/kernel_cleaner).

The script is a thin orchestrator over system package-manager calls.  We embed its
pure logic shallowly:

* Python strings are Lean `String`s; the string operations the script uses
  (`split('\n')`, `split()`, `startswith`, `in`, `re.match`, `re.search`,
  `lower`, `strip`, sorting) are implemented on the underlying character lists,
  following CPython semantics for exactly the patterns the script uses.
* Functions that read host state (`dpkg -l` output, `uname -r`, the interactive
  confirmation answer, subprocess exit codes) become functions of those inputs.
* Side effects are made visible as a trace of `Cmd` values, one per
  `subprocess.run` invocation, so that "no mutating call" is a statement about
  the trace.
* A raised exception that a function converts into a sentinel (`ValueError` in
  `find_oldest_removable_kernel`) is modelled by the corresponding branch;
  an exception that propagates is an `Option`-`none`.
-/

namespace KernelCleaner

/-! ### Character-level models of the Python string primitives -/

/-- `dropLiteral p s`: if `p` is a literal prefix of `s`, the remainder of `s`
after `p`; otherwise `none`. -/
def dropLiteral : List Char → List Char → Option (List Char)
  | [], s => some s
  | _ :: _, [] => none
  | a :: p, b :: s => if a = b then dropLiteral p s else none

/-- Python `s.startswith(p)`. -/
def startsWith (p s : List Char) : Bool :=
  (dropLiteral p s).isSome

/-- Python `pat in s` (substring containment). -/
def hasSubstring : List Char → List Char → Bool
  | [], pat => pat.isEmpty
  | c :: rest, pat => startsWith pat (c :: rest) || hasSubstring rest pat

/-- Helper for `splitOnChar`: accumulates the current field reversed. -/
def splitOnCharAux (sep : Char) : List Char → List Char → List (List Char)
  | [], acc => [acc.reverse]
  | c :: cs, acc =>
    if c = sep then acc.reverse :: splitOnCharAux sep cs []
    else splitOnCharAux sep cs (c :: acc)

/-- Python `s.split(sep)` for a one-character separator: keeps empty fields,
including a trailing one. -/
def splitOnChar (sep : Char) (cs : List Char) : List (List Char) :=
  splitOnCharAux sep cs []

/-- Python `stdout.split('\n')`. -/
def splitLines (s : String) : List String :=
  (splitOnChar '\n' s.data).map String.mk

/-- Helper for `pySplit`: split on runs of whitespace, discarding empty fields. -/
def pyWordsAux : List Char → List Char → List (List Char)
  | [], acc => if acc.isEmpty then [] else [acc.reverse]
  | c :: cs, acc =>
    if c.isWhitespace then
      if acc.isEmpty then pyWordsAux cs []
      else acc.reverse :: pyWordsAux cs []
    else pyWordsAux cs (c :: acc)

/-- Python `line.split()` with no argument: whitespace runs separate fields and
no empty fields are produced. -/
def pySplit (s : String) : List String :=
  (pyWordsAux s.data []).map String.mk

/-- Python string `<=`: lexicographic comparison by code point, a proper prefix
comparing smaller. -/
def pyStrLeChars : List Char → List Char → Bool
  | [], _ => true
  | _ :: _, [] => false
  | a :: s, b :: t => if a = b then pyStrLeChars s t else decide (a < b)

/-- Python `<=` on strings. -/
def pyStrLe (s t : String) : Bool :=
  pyStrLeChars s.data t.data

/-- Python `s.strip()`: remove leading and trailing whitespace. -/
def pyStripChars (cs : List Char) : List Char :=
  ((cs.dropWhile Char.isWhitespace).reverse.dropWhile Char.isWhitespace).reverse

/-! ### The version regex `(\d+)\.(\d+)\.(\d+)-(\d+)`

The regex is used twice by the script: anchored at the start of the string by
`re.match` in `parse_kernel_version`, and after the literal `linux-image-` by
`re.search` in `get_installed_kernels`.  Each `\d+` is followed by a character
that is not a digit (or by nothing), so the backtracking regex engine behaves
exactly like maximal munch of a nonempty digit run. -/

/-- Maximal nonempty run of digits at the head, with the unconsumed rest;
`none` when the head character is not a digit (a failed `\d+`). -/
def parseDigitRun (cs : List Char) : Option (List Char × List Char) :=
  let ds := cs.takeWhile Char.isDigit
  if ds.isEmpty then none else some (ds, cs.dropWhile Char.isDigit)

/-- Consume one expected literal character. -/
def expectChar (c : Char) : List Char → Option (List Char)
  | x :: r => if x = c then some r else none
  | [] => none

/-- Prefix match of `(\d+)\.(\d+)\.(\d+)-(\d+)` against `cs`: the four digit
groups and the unconsumed rest (trailing characters are allowed, as with
`re.match`). -/
def matchVersionPat (cs : List Char) :
    Option ((List Char × List Char × List Char × List Char) × List Char) :=
  (parseDigitRun cs).bind fun p1 =>
  (expectChar '.' p1.2).bind fun s1 =>
  (parseDigitRun s1).bind fun p2 =>
  (expectChar '.' p2.2).bind fun s2 =>
  (parseDigitRun s2).bind fun p3 =>
  (expectChar '-' p3.2).bind fun s3 =>
  (parseDigitRun s3).bind fun p4 =>
  some ((p1.1, p2.1, p3.1, p4.1), p4.2)

/-- Numeric value of a digit string, as Python `int` computes it. -/
def natOfDigits (ds : List Char) : Nat :=
  ds.foldl (fun a c => 10 * a + (c.toNat - 48)) 0

/-- The text of capture group 1 of `linux-image-(\d+\.\d+\.\d+-\d+)` when the
four digit groups are `d1 d2 d3 d4`. -/
def groupChars (d1 d2 d3 d4 : List Char) : List Char :=
  d1 ++ ('.' :: (d2 ++ ('.' :: (d3 ++ ('-' :: d4)))))

/-- `parse_kernel_version`: `re.match(r'(\d+)\.(\d+)\.(\d+)-(\d+)', version)`
followed by `int` conversion of the four groups.  `none` models the raised
`ValueError` for a malformed version. -/
def parse_kernel_version (version : String) : Option (Nat × Nat × Nat × Nat) :=
  match matchVersionPat version.data with
  | some ((d1, d2, d3, d4), _) =>
    some (natOfDigits d1, natOfDigits d2, natOfDigits d3, natOfDigits d4)
  | none => none

/-! ### Ordering of versions -/

/-- Python tuple `<=` on the parsed 4-tuples: the first differing component,
compared numerically, decides. -/
def tupLe (a b : Nat × Nat × Nat × Nat) : Bool :=
  if a.1 ≠ b.1 then decide (a.1 < b.1)
  else if a.2.1 ≠ b.2.1 then decide (a.2.1 < b.2.1)
  else if a.2.2.1 ≠ b.2.2.1 then decide (a.2.2.1 < b.2.2.1)
  else decide (a.2.2.2 ≤ b.2.2.2)

/-- Non-strict numeric (major, minor, patch, revision) precedence, spelled out. -/
abbrev tupLeProp (a b : Nat × Nat × Nat × Nat) : Prop :=
  a.1 < b.1 ∨ a.1 = b.1 ∧ (a.2.1 < b.2.1 ∨ a.2.1 = b.2.1 ∧
    (a.2.2.1 < b.2.2.1 ∨ a.2.2.1 = b.2.2.1 ∧ a.2.2.2 ≤ b.2.2.2))

/-- The comparison on version strings induced by sorting with
`key=self.parse_kernel_version`: compare the parsed tuples.  The `none` rows are
arbitrary (total, to keep the relation well behaved): the script never compares
an unparsable string, because computing its key raises first — see
`sortRaisesValueError`. -/
def versionLe (v w : String) : Bool :=
  match parse_kernel_version v, parse_kernel_version w with
  | some a, some b => tupLe a b
  | none, _ => true
  | some _, none => false

/-! ### `get_installed_kernels` -/

/-- The attempt of `re.search(r'linux-image-(\d+\.\d+\.\d+-\d+)', package)` at
one fixed position: the literal, then the version pattern; returns group 1. -/
def tryMatchAt (cs : List Char) : Option (List Char) :=
  (dropLiteral "linux-image-".data cs).bind fun rest =>
  (matchVersionPat rest).map fun m =>
    groupChars m.1.1 m.1.2.1 m.1.2.2.1 m.1.2.2.2

/-- `re.search(r'linux-image-(\d+\.\d+\.\d+-\d+)', package)`: try each position
left to right, return group 1 of the leftmost match. -/
def searchKernelPat : List Char → Option (List Char)
  | [] => none
  | c :: cs =>
    match tryMatchAt (c :: cs) with
    | some g => some g
    | none => searchKernelPat cs

/-- The body of the `dpkg -l` line loop of `get_installed_kernels`: a line
contributes a version iff it contains `linux-image-`, starts with `ii`, has at
least two whitespace-separated fields, and the search succeeds on field 1. -/
def extractKernelFromLine (line : String) : Option String :=
  if hasSubstring line.data "linux-image-".data && startsWith "ii".data line.data then
    match pySplit line with
    | _ :: package :: _ => (searchKernelPat package.data).map String.mk
    | _ => none
  else none

/-- `get_installed_kernels`, as a function of the captured stdout of `dpkg -l`:
collect the extracted versions line by line, then `sorted(set(kernels))`
(distinct versions in ascending lexicographic string order). -/
def get_installed_kernels (stdout : String) : List String :=
  (((splitLines stdout).filterMap extractKernelFromLine).dedup).insertionSort
    (fun a b => pyStrLe a b = true)

/-! ### `find_oldest_removable_kernel` -/

/-- Whether `removable_kernels.sort(key=self.parse_kernel_version)` raises
`ValueError`: Python computes the key of every element before sorting, so the
sort raises iff some element fails to parse. -/
def sortRaisesValueError (l : List String) : Bool :=
  !(l.all fun k => (parse_kernel_version k).isSome)

/-- `find_oldest_removable_kernel`, as a function of the discovered installed
list and the current kernel string: drop the current kernel, return `none` if
fewer than two candidates remain or the sort raises, otherwise the head of the
list sorted ascending by parsed version. -/
def find_oldest_removable_kernel (installed : List String) (current : String) :
    Option String :=
  let removable := installed.filter fun k => k != current
  if removable.isEmpty then none
  else if removable.length ≤ 1 then none
  else if sortRaisesValueError removable then none
  else (removable.insertionSort fun a b => versionLe a b = true).head?

/-! ### The removal workflow -/

/-- One `subprocess.run` invocation.  `unameR` and `dpkgList` are read-only
queries; `aptPurge` (`sudo apt-get remove --purge -y …`) and `updateGrub`
(`sudo update-grub`) mutate the system. -/
inductive Cmd where
  | unameR : Cmd
  | dpkgList : Cmd
  | aptPurge : List String → Cmd
  | updateGrub : Cmd
deriving DecidableEq

/-- Whether a command mutates the system. -/
def Cmd.isMutating : Cmd → Bool
  | .aptPurge _ => true
  | .updateGrub => true
  | _ => false

/-- `confirm_removal`'s decision: the prompt answer, lower-cased and stripped,
must be one of `oui`, `o`, `yes`, `y`. -/
def confirm_removal_accepts (response : String) : Bool :=
  (["oui", "o", "yes", "y"] : List String).contains
    (String.mk (pyStripChars (response.data.map Char.toLower)))

/-- The outside world as `remove_kernel` observes it: the resolved package group
(the result of `get_kernel_packages`), the interactive confirmation answer, the
exit code of the purge command, and whether `update-grub` succeeds. -/
structure RemoveWorld where
  packages : List String
  response : String
  purgeReturncode : Int
  updateGrubSucceeds : Bool

/-- `remove_kernel`: the Boolean result paired with the trace of external
commands.  The package group is resolved first (`dpkg -l`); an empty group or a
dry run or a refused confirmation stops before any mutation; the purge runs
next, and on purge success `update-grub` runs with `check=True`, whose failure
is caught by the surrounding `except` and turned into `False`. -/
def remove_kernel (kernel_version : String) (dry_run : Bool) (w : RemoveWorld) :
    Bool × List Cmd :=
  if w.packages.isEmpty then (false, [Cmd.dpkgList])
  else if dry_run then (true, [Cmd.dpkgList])
  else if !confirm_removal_accepts w.response then (false, [Cmd.dpkgList])
  else if w.purgeReturncode = 0 then
    if w.updateGrubSucceeds then
      (true, [Cmd.dpkgList, Cmd.aptPurge w.packages, Cmd.updateGrub])
    else
      (false, [Cmd.dpkgList, Cmd.aptPurge w.packages, Cmd.updateGrub])
  else (false, [Cmd.dpkgList, Cmd.aptPurge w.packages])

/-! ### `show_status` and `main` -/

/-- `show_status`, as a function of the `dpkg -l` stdout and the running kernel:
the first component is `none` when the `sorted(..., key=parse_kernel_version)`
call raises (the exception propagates), otherwise the newest-first listing with
the ACTUEL annotation Boolean, together with the reported removable candidate.
The second component is the trace: one `dpkg -l` for the listing, and one more
inside `find_oldest_removable_kernel`. -/
def show_status (stdout : String) (current : String) :
    Option (List (String × Bool) × Option String) × List Cmd :=
  let installed := get_installed_kernels stdout
  if sortRaisesValueError installed then (none, [Cmd.dpkgList])
  else
    (some
      ((installed.insertionSort fun a b => versionLe b a = true).map
        (fun k => (k, k == current)),
       find_oldest_removable_kernel installed current),
     [Cmd.dpkgList, Cmd.dpkgList])

/-- How `cleaner = KernelCleaner(); cleaner.run(...)` ends inside `main`'s
`try` block. -/
inductive RunOutcome where
  | normal : RunOutcome
  | interrupted : RunOutcome
  | raisedException : RunOutcome
deriving DecidableEq

/-- `main`'s exit code, as a function of the parsed flags, the effective uid and
the outcome of the run: `sys.exit(1)` when a mutating run lacks root, on
`KeyboardInterrupt`, and on any other exception; falling off the end of `main`
exits 0. -/
def mainExitCode (dry_run status : Bool) (euid : Nat) (outcome : RunOutcome) : Nat :=
  if !dry_run && !status && euid != 0 then 1
  else
    match outcome with
    | .normal => 0
    | .interrupted => 1
    | .raisedException => 1

/-! ## Helper lemmas -/

theorem tupLe_iff (a b : Nat × Nat × Nat × Nat) : tupLe a b = true ↔ tupLeProp a b := by
  rcases a with ⟨a1, a2, a3, a4⟩
  rcases b with ⟨b1, b2, b3, b4⟩
  simp only [tupLe, tupLeProp]
  split_ifs <;> simp_all <;> omega

theorem tupLe_refl (a : Nat × Nat × Nat × Nat) : tupLe a a = true := by
  simp [tupLe]

theorem tupLe_trans {a b c : Nat × Nat × Nat × Nat}
    (h1 : tupLe a b = true) (h2 : tupLe b c = true) : tupLe a c = true := by
  rw [tupLe_iff] at h1 h2 ⊢
  rcases a with ⟨a1, a2, a3, a4⟩
  rcases b with ⟨b1, b2, b3, b4⟩
  rcases c with ⟨c1, c2, c3, c4⟩
  simp only [tupLeProp] at h1 h2 ⊢
  omega

theorem tupLe_total (a b : Nat × Nat × Nat × Nat) :
    tupLe a b = true ∨ tupLe b a = true := by
  rw [tupLe_iff, tupLe_iff]
  rcases a with ⟨a1, a2, a3, a4⟩
  rcases b with ⟨b1, b2, b3, b4⟩
  simp only [tupLeProp]
  omega

theorem versionLe_eq_tupLe {v w : String} {t u : Nat × Nat × Nat × Nat}
    (hv : parse_kernel_version v = some t) (hw : parse_kernel_version w = some u) :
    versionLe v w = tupLe t u := by
  simp [versionLe, hv, hw]

theorem versionLe_trans {a b c : String}
    (h1 : versionLe a b = true) (h2 : versionLe b c = true) : versionLe a c = true := by
  cases ha : parse_kernel_version a <;> cases hb : parse_kernel_version b <;>
    cases hc : parse_kernel_version c <;>
      simp only [versionLe, ha, hb, hc] at h1 h2 ⊢
  case some.none.none => exact h1
  case some.none.some => simp at h1
  case some.some.none => exact h2
  case some.some.some => exact tupLe_trans h1 h2

theorem versionLe_total (a b : String) : versionLe a b = true ∨ versionLe b a = true := by
  cases ha : parse_kernel_version a <;> cases hb : parse_kernel_version b <;>
    simp only [versionLe, ha, hb]
  any_goals simp
  exact tupLe_total _ _

theorem takeWhile_dropWhile_of_append (p : Char → Bool) (ds r : List Char)
    (h2 : ∀ c ∈ ds, p c = true) (h3 : ∀ c, r.head? = some c → p c = false) :
    (ds ++ r).takeWhile p = ds ∧ (ds ++ r).dropWhile p = r := by
  induction ds with
  | nil =>
    simp only [List.nil_append]
    cases r with
    | nil => simp
    | cons c r' =>
      have hc := h3 c rfl
      constructor
      · exact List.takeWhile_cons_of_neg (by simp [hc])
      · exact List.dropWhile_cons_of_neg (by simp [hc])
  | cons d ds ih =>
    have hd : p d = true := h2 d (by simp)
    obtain ⟨iht, ihd⟩ := ih fun c hc => h2 c (by simp [hc])
    constructor
    · simpa [List.takeWhile_cons_of_pos hd] using iht
    · simpa [List.dropWhile_cons_of_pos hd] using ihd

theorem parseDigitRun_sound {cs ds r : List Char}
    (h : parseDigitRun cs = some (ds, r)) :
    ds ≠ [] ∧ (∀ c ∈ ds, c.isDigit = true) ∧ cs = ds ++ r := by
  simp only [parseDigitRun] at h
  split_ifs at h with he
  simp only [Option.some.injEq, Prod.mk.injEq] at h
  obtain ⟨hds, hr⟩ := h
  subst hds
  subst hr
  exact ⟨by simpa using he, fun c hc => List.mem_takeWhile_imp hc,
    (List.takeWhile_append_dropWhile Char.isDigit cs).symm⟩

theorem parseDigitRun_append {ds : List Char} (r : List Char)
    (h1 : ds ≠ []) (h2 : ∀ c ∈ ds, c.isDigit = true)
    (h3 : ∀ c, r.head? = some c → c.isDigit = false) :
    parseDigitRun (ds ++ r) = some (ds, r) := by
  obtain ⟨ht, hd⟩ := takeWhile_dropWhile_of_append Char.isDigit ds r h2 h3
  have hne : ds.isEmpty = false := List.isEmpty_eq_false.mpr h1
  simp [parseDigitRun, ht, hd, hne]

theorem expectChar_eq_some {c : Char} {cs r : List Char}
    (h : expectChar c cs = some r) : cs = c :: r := by
  cases cs with
  | nil => simp [expectChar] at h
  | cons x t =>
    simp only [expectChar] at h
    split_ifs at h with hx
    simp only [Option.some.injEq] at h
    subst hx
    subst h
    rfl

/-- A successful prefix match of the version pattern re-matches, exhausting the
input, when run on the text of the matched group alone. -/
theorem matchVersionPat_groupChars {cs : List Char} {d1 d2 d3 d4 r : List Char}
    (h : matchVersionPat cs = some ((d1, d2, d3, d4), r)) :
    matchVersionPat (groupChars d1 d2 d3 d4) = some ((d1, d2, d3, d4), []) := by
  unfold matchVersionPat at h
  simp only [Option.bind_eq_some, Option.some.injEq] at h
  obtain ⟨⟨e1, f1⟩, hp1, s1, hs1, ⟨e2, f2⟩, hp2, s2, hs2, ⟨e3, f3⟩, hp3, s3, hs3, ⟨e4, f4⟩, hp4, hgrp, hrest⟩ := h
  obtain ⟨hne1, hdig1, -⟩ := parseDigitRun_sound hp1
  obtain ⟨hne2, hdig2, -⟩ := parseDigitRun_sound hp2
  obtain ⟨hne3, hdig3, -⟩ := parseDigitRun_sound hp3
  obtain ⟨hne4, hdig4, -⟩ := parseDigitRun_sound hp4
  have hdot : ∀ (t : List Char) (c : Char), ('.' :: t).head? = some c → c.isDigit = false := by
    intro t c hc
    simp only [List.head?_cons, Option.some.injEq] at hc
    subst hc
    decide
  have hdash : ∀ (t : List Char) (c : Char), ('-' :: t).head? = some c → c.isDigit = false := by
    intro t c hc
    simp only [List.head?_cons, Option.some.injEq] at hc
    subst hc
    decide
  have q1 : parseDigitRun (groupChars e1 e2 e3 e4) =
      some (e1, '.' :: (e2 ++ ('.' :: (e3 ++ ('-' :: e4))))) := by
    unfold groupChars
    exact parseDigitRun_append _ hne1 hdig1 (hdot _)
  have q3 : parseDigitRun (e2 ++ ('.' :: (e3 ++ ('-' :: e4)))) =
      some (e2, '.' :: (e3 ++ ('-' :: e4))) :=
    parseDigitRun_append _ hne2 hdig2 (hdot _)
  have q5 : parseDigitRun (e3 ++ ('-' :: e4)) = some (e3, '-' :: e4) :=
    parseDigitRun_append _ hne3 hdig3 (hdash _)
  have q7 : parseDigitRun e4 = some (e4, []) := by
    have := parseDigitRun_append ([] : List Char) hne4 hdig4 (by intro c hc; simp at hc)
    simpa using this
  unfold matchVersionPat
  simp [q1, q3, q5, q7, expectChar]

/-- Soundness of one `re.search` attempt: the returned group text is a full
match of the version pattern. -/
theorem tryMatchAt_sound {cs g : List Char} (h : tryMatchAt cs = some g) :
    ∃ d1 d2 d3 d4, g = groupChars d1 d2 d3 d4 ∧
      matchVersionPat g = some ((d1, d2, d3, d4), []) := by
  unfold tryMatchAt at h
  simp only [Option.bind_eq_some, Option.map_eq_some'] at h
  obtain ⟨rest, hdl, ⟨⟨d1, d2, d3, d4⟩, r⟩, hm, hg⟩ := h
  subst hg
  exact ⟨d1, d2, d3, d4, rfl, matchVersionPat_groupChars hm⟩

/-- Soundness of the whole `re.search`: group 1 is a full match of the version
pattern. -/
theorem searchKernelPat_sound {cs g : List Char} (h : searchKernelPat cs = some g) :
    ∃ d1 d2 d3 d4, g = groupChars d1 d2 d3 d4 ∧
      matchVersionPat g = some ((d1, d2, d3, d4), []) := by
  induction cs with
  | nil => simp [searchKernelPat] at h
  | cons c cs ih =>
    rw [searchKernelPat] at h
    cases htry : tryMatchAt (c :: cs) with
    | some g' =>
      rw [htry] at h
      simp only [Option.some.injEq] at h
      subst h
      exact tryMatchAt_sound htry
    | none =>
      rw [htry] at h
      exact ih h

/-- Any version string produced by the search parses. -/
theorem parse_of_searchKernelPat {cs g : List Char}
    (h : searchKernelPat cs = some g) :
    (parse_kernel_version (String.mk g)).isSome = true := by
  obtain ⟨d1, d2, d3, d4, rfl, hm⟩ := searchKernelPat_sound h
  have hdata : (String.mk (groupChars d1 d2 d3 d4)).data = groupChars d1 d2 d3 d4 := rfl
  simp [parse_kernel_version, hdata, hm]

/-- Soundness of the `dpkg -l` line filter: a line that contributes a version
contains `linux-image-`, starts with `ii`, and the version it contributes
parses. -/
theorem extractKernelFromLine_sound {line v : String}
    (h : extractKernelFromLine line = some v) :
    hasSubstring line.data "linux-image-".data = true ∧
    startsWith "ii".data line.data = true ∧
    (parse_kernel_version v).isSome = true := by
  unfold extractKernelFromLine at h
  split_ifs at h with hcond
  obtain ⟨h1, h2⟩ := Bool.and_eq_true_iff.mp hcond
  refine ⟨h1, h2, ?_⟩
  cases hps : pySplit line with
  | nil => rw [hps] at h; simp at h
  | cons p0 tl =>
    cases tl with
    | nil => rw [hps] at h; simp at h
    | cons package rest =>
      rw [hps] at h
      simp only [Option.map_eq_some'] at h
      obtain ⟨g, hg, hv⟩ := h
      subst hv
      exact parse_of_searchKernelPat hg

/-- Membership in the discovery result, characterised line by line. -/
theorem mem_get_installed_kernels {stdout v : String} :
    v ∈ get_installed_kernels stdout ↔
      ∃ line ∈ splitLines stdout, extractKernelFromLine line = some v := by
  unfold get_installed_kernels
  rw [List.mem_insertionSort, List.mem_dedup, List.mem_filterMap]

/-! ## Claims -/

/-- C2: for every discovered installed set and every current-kernel string, the
removable candidate list built by `find_oldest_removable_kernel` never contains
the current kernel, and so the current kernel is never the selected version. -/
theorem current_kernel_never_selected (installed : List String) (current : String) :
    current ∉ installed.filter (fun k => k != current) ∧
    find_oldest_removable_kernel installed current ≠ some current := by
  have hmem : current ∉ installed.filter (fun k => k != current) := by
    intro hc
    have h2 := (List.mem_filter.mp hc).2
    simp at h2
  refine ⟨hmem, ?_⟩
  intro h
  simp only [find_oldest_removable_kernel] at h
  split_ifs at h with h1 h2 h3
  cases hL : (installed.filter (fun k => k != current)).insertionSort
      (fun a b => versionLe a b = true) with
  | nil => rw [hL] at h; simp at h
  | cons x xs =>
    rw [hL] at h
    simp only [List.head?_cons, Option.some.injEq] at h
    have hx : x ∈ (installed.filter (fun k => k != current)).insertionSort
        (fun a b => versionLe a b = true) := by
      rw [hL]
      exact List.mem_cons_self _ _
    rw [List.mem_insertionSort] at hx
    rw [h] at hx
    exact hmem hx

/-- Witness for C2 at the concrete discovered set of the spec example. -/
theorem current_kernel_never_selected_wit :
    find_oldest_removable_kernel ["5.4.0-1", "5.8.0-2", "5.10.0-3"] "5.10.0-3" ≠
      some "5.10.0-3" :=
  (current_kernel_never_selected ["5.4.0-1", "5.8.0-2", "5.10.0-3"] "5.10.0-3").2

/-- C3: when fewer than two versions remain after excluding the current kernel,
`find_oldest_removable_kernel` returns no candidate. -/
theorem selection_none_when_no_spare (installed : List String) (current : String)
    (h : (installed.filter fun k => k != current).length < 2) :
    find_oldest_removable_kernel installed current = none := by
  simp only [find_oldest_removable_kernel]
  split_ifs with h1 h2 h3 <;> try rfl
  omega

/-- Witness for C3: the running kernel plus exactly one other kernel. -/
theorem selection_none_when_no_spare_wit :
    ((["5.4.0-1", "5.8.0-2"] : List String).filter fun k => k != "5.8.0-2").length < 2 ∧
    find_oldest_removable_kernel ["5.4.0-1", "5.8.0-2"] "5.8.0-2" = none :=
  ⟨by decide, selection_none_when_no_spare ["5.4.0-1", "5.8.0-2"] "5.8.0-2" (by decide)⟩

/-- C4: on well-formed version strings the comparison induced by
`parse_kernel_version` is exactly numeric (major, minor, patch, revision)
precedence of the parsed tuples. -/
theorem version_comparison_numeric (v w : String) (t u : Nat × Nat × Nat × Nat)
    (hv : parse_kernel_version v = some t) (hw : parse_kernel_version w = some u) :
    (versionLe v w = true ↔ tupLeProp t u) ∧
    (versionLe w v = false ↔ ¬ tupLeProp u t) := by
  have h1 := versionLe_eq_tupLe hv hw
  have h2 := versionLe_eq_tupLe hw hv
  constructor
  · rw [h1]
    exact tupLe_iff t u
  · rw [h2, ← tupLe_iff]
    simp

/-- Witness for C4: "5.9.0-1" is below "5.10.0-1" in the induced comparison,
although plain lexicographic string order puts "5.10.0-1" first. -/
theorem version_comparison_numeric_wit :
    parse_kernel_version "5.9.0-1" = some (5, 9, 0, 1) ∧
    parse_kernel_version "5.10.0-1" = some (5, 10, 0, 1) ∧
    ((versionLe "5.9.0-1" "5.10.0-1" = true ↔ tupLeProp (5, 9, 0, 1) (5, 10, 0, 1)) ∧
      (versionLe "5.10.0-1" "5.9.0-1" = false ↔ ¬ tupLeProp (5, 10, 0, 1) (5, 9, 0, 1))) ∧
    versionLe "5.9.0-1" "5.10.0-1" = true ∧
    versionLe "5.10.0-1" "5.9.0-1" = false ∧
    pyStrLe "5.10.0-1" "5.9.0-1" = true ∧
    pyStrLe "5.9.0-1" "5.10.0-1" = false :=
  ⟨by decide, by decide,
    version_comparison_numeric "5.9.0-1" "5.10.0-1" (5, 9, 0, 1) (5, 10, 0, 1)
      (by decide) (by decide),
    by decide, by decide, by decide, by decide⟩

/-- C5 (amended): a dry-run `remove_kernel` never invokes a mutating command;
with a non-empty resolved package group it stops after reporting and returns
success, while with an empty group it returns failure (still without any
mutating call). -/
theorem dry_run_never_mutates (kernel_version : String) (w : RemoveWorld) :
    (∀ c ∈ (remove_kernel kernel_version true w).2, c.isMutating = false) ∧
    (w.packages ≠ [] → (remove_kernel kernel_version true w).1 = true) ∧
    (w.packages = [] → (remove_kernel kernel_version true w).1 = false) := by
  by_cases hp : w.packages.isEmpty
  · have hnil : w.packages = [] := List.isEmpty_iff.mp hp
    simp [remove_kernel, hp, hnil, Cmd.isMutating]
  · have hnil : w.packages ≠ [] := by
      simpa using hp
    simp [remove_kernel, hp, hnil, Cmd.isMutating]

/-- Counterexample to C5 as stated: in dry-run mode with an empty resolved
package group, `remove_kernel` returns failure rather than success. -/
theorem dry_run_empty_group_returns_failure :
    (remove_kernel "5.4.0-1" true ⟨[], "oui", 0, true⟩).1 = false := by decide

/-- Witness for C5's amended theorem on a non-empty package group. -/
theorem dry_run_never_mutates_wit :
    (∀ c ∈ (remove_kernel "5.4.0-1" true
        ⟨["linux-image-5.4.0-1-generic"], "non", 0, true⟩).2, c.isMutating = false) ∧
    (remove_kernel "5.4.0-1" true
        ⟨["linux-image-5.4.0-1-generic"], "non", 0, true⟩).1 = true :=
  ⟨(dry_run_never_mutates "5.4.0-1" ⟨["linux-image-5.4.0-1-generic"], "non", 0, true⟩).1,
    (dry_run_never_mutates "5.4.0-1"
      ⟨["linux-image-5.4.0-1-generic"], "non", 0, true⟩).2.1 (by decide)⟩

/-- C6: in a non-dry-run removal with a non-empty package group, any
confirmation answer other than an explicit affirmative leads to no mutating
call and a failure result. -/
theorem refused_confirmation_no_mutation (kernel_version : String) (w : RemoveWorld)
    (hpk : w.packages ≠ [])
    (hresp : confirm_removal_accepts w.response = false) :
    (remove_kernel kernel_version false w).1 = false ∧
    ∀ c ∈ (remove_kernel kernel_version false w).2, c.isMutating = false := by
  have hp : w.packages.isEmpty = false := by simpa using hpk
  simp [remove_kernel, hp, hresp, Cmd.isMutating]

/-- Witness for C6 with the answer "non". -/
theorem refused_confirmation_no_mutation_wit :
    (remove_kernel "5.4.0-1" false
        ⟨["linux-image-5.4.0-1-generic"], "non", 0, true⟩).1 = false ∧
    ∀ c ∈ (remove_kernel "5.4.0-1" false
        ⟨["linux-image-5.4.0-1-generic"], "non", 0, true⟩).2, c.isMutating = false :=
  refused_confirmation_no_mutation "5.4.0-1"
    ⟨["linux-image-5.4.0-1-generic"], "non", 0, true⟩ (by decide) (by decide)

/-- C7: the exit code is 1 exactly when a mutating run lacks root privileges,
the run is interrupted, or an exception propagates to `main`; it is 0 in every
other run. -/
theorem exit_code_one_iff (dry_run status : Bool) (euid : Nat) (outcome : RunOutcome) :
    (mainExitCode dry_run status euid outcome = 1 ↔
      ((dry_run = false ∧ status = false ∧ euid ≠ 0) ∨ outcome ≠ RunOutcome.normal)) ∧
    (mainExitCode dry_run status euid outcome = 0 ↔
      ¬((dry_run = false ∧ status = false ∧ euid ≠ 0) ∨ outcome ≠ RunOutcome.normal)) := by
  cases dry_run <;> cases status <;> cases outcome <;>
    by_cases he : euid = 0 <;> simp [mainExitCode, he]

/-- Witness for C7: a privilege failure and an interrupt exit 1, a completed
dry run exits 0. -/
theorem exit_code_one_iff_wit :
    mainExitCode false false 1000 RunOutcome.normal = 1 ∧
    mainExitCode false false 1000 RunOutcome.interrupted = 1 ∧
    mainExitCode true false 1000 RunOutcome.normal = 0 := by
  refine ⟨?_, ?_, ?_⟩
  · exact (exit_code_one_iff false false 1000 RunOutcome.normal).1.mpr (by simp)
  · exact (exit_code_one_iff false false 1000 RunOutcome.interrupted).1.mpr (by simp)
  · exact (exit_code_one_iff true false 1000 RunOutcome.normal).2.mpr (by simp)

/-- Shared helper: every version string in the discovery result parses. -/
theorem mem_discovery_parses {stdout v : String}
    (h : v ∈ get_installed_kernels stdout) :
    (parse_kernel_version v).isSome = true := by
  obtain ⟨line, hline, hex⟩ := mem_get_installed_kernels.mp h
  exact (extractKernelFromLine_sound hex).2.2

/-- Shared helper: the key computation over any sublist of the discovery result
never raises. -/
theorem sortRaisesValueError_discovery_filter (stdout current : String) :
    sortRaisesValueError
      ((get_installed_kernels stdout).filter fun k => k != current) = false := by
  have hall : ((get_installed_kernels stdout).filter fun k => k != current).all
      (fun k => (parse_kernel_version k).isSome) = true := by
    rw [List.all_eq_true]
    intro k hk
    exact mem_discovery_parses (List.mem_of_mem_filter hk)
  simp [sortRaisesValueError, hall]

/-- C8: a version is included by `get_installed_kernels` only via a line that
starts with `ii`, contains `linux-image-`, and yields the version through the
fixed `major.minor.patch-revision` pattern; every included version parses, and
entries not matching the pattern never appear (and nothing raises). -/
theorem installed_versions_match_pattern (stdout v : String)
    (h : v ∈ get_installed_kernels stdout) :
    ∃ line ∈ splitLines stdout,
      extractKernelFromLine line = some v ∧
      hasSubstring line.data "linux-image-".data = true ∧
      startsWith "ii".data line.data = true ∧
      (parse_kernel_version v).isSome = true := by
  obtain ⟨line, hline, hex⟩ := mem_get_installed_kernels.mp h
  obtain ⟨h1, h2, h3⟩ := extractKernelFromLine_sound hex
  exact ⟨line, hline, hex, h1, h2, h3⟩

/-- Witness for C8 on a realistic `dpkg -l` excerpt. -/
theorem installed_versions_match_pattern_wit :
    "5.4.0-26" ∈ get_installed_kernels
      "ii  linux-image-5.4.0-26-generic  5.4.0-26.30  amd64  kernel\nii  vim  2:8.1  amd64  editor" ∧
    ∃ line ∈ splitLines
        "ii  linux-image-5.4.0-26-generic  5.4.0-26.30  amd64  kernel\nii  vim  2:8.1  amd64  editor",
      extractKernelFromLine line = some "5.4.0-26" ∧
      hasSubstring line.data "linux-image-".data = true ∧
      startsWith "ii".data line.data = true ∧
      (parse_kernel_version "5.4.0-26").isSome = true :=
  ⟨by decide,
    installed_versions_match_pattern
      "ii  linux-image-5.4.0-26-generic  5.4.0-26.30  amd64  kernel\nii  vim  2:8.1  amd64  editor"
      "5.4.0-26" (by decide)⟩

/-- C10: every version produced by discovery parses, so the sort inside
`find_oldest_removable_kernel` never raises on discovery output and the
`ValueError` branch is unreachable there. -/
theorem discovery_sort_never_raises (stdout current : String) :
    (∀ v ∈ get_installed_kernels stdout, (parse_kernel_version v).isSome = true) ∧
    sortRaisesValueError
      ((get_installed_kernels stdout).filter fun k => k != current) = false :=
  ⟨fun _ hv => mem_discovery_parses hv,
    sortRaisesValueError_discovery_filter stdout current⟩

/-- Witness for C10 on a realistic `dpkg -l` excerpt. -/
theorem discovery_sort_never_raises_wit :
    sortRaisesValueError
      ((get_installed_kernels
          "ii  linux-image-5.4.0-26-generic  5.4.0-26.30  amd64  kernel").filter
        fun k => k != "5.8.0-2") = false :=
  (discovery_sort_never_raises
    "ii  linux-image-5.4.0-26-generic  5.4.0-26.30  amd64  kernel" "5.8.0-2").2

/-- C1: when at least two versions remain after excluding the current kernel and
every remaining version parses (as discovery guarantees), the selection returns
a remaining version whose parsed tuple is minimal under numeric tuple order. -/
theorem find_oldest_selects_minimum (installed : List String) (current : String)
    (hlen : 2 ≤ (installed.filter fun k => k != current).length)
    (hparse : ∀ k ∈ installed.filter (fun k => k != current),
      (parse_kernel_version k).isSome = true) :
    ∃ r t, find_oldest_removable_kernel installed current = some r ∧
      r ∈ installed.filter (fun k => k != current) ∧
      parse_kernel_version r = some t ∧
      ∀ k ∈ installed.filter (fun k => k != current), ∀ u,
        parse_kernel_version k = some u → tupLe t u = true := by
  haveI : IsTrans String (fun a b => versionLe a b = true) :=
    ⟨fun a b c => versionLe_trans⟩
  haveI : IsTotal String (fun a b => versionLe a b = true) := ⟨versionLe_total⟩
  set removable := installed.filter (fun k => k != current) with hrm
  have hne : removable.isEmpty = false := by
    rw [List.isEmpty_eq_false]
    intro hn
    rw [hn] at hlen
    simp at hlen
  have hnotle : ¬ removable.length ≤ 1 := by omega
  have hall : removable.all (fun k => (parse_kernel_version k).isSome) = true := by
    rw [List.all_eq_true]
    exact hparse
  have hsv : sortRaisesValueError removable = false := by
    simp [sortRaisesValueError, hall]
  have hres : find_oldest_removable_kernel installed current =
      (removable.insertionSort (fun a b => versionLe a b = true)).head? := by
    simp only [find_oldest_removable_kernel, ← hrm, hne, hsv, hnotle]
    simp [hnotle]
  have hlenL : (removable.insertionSort (fun a b => versionLe a b = true)).length =
      removable.length := List.length_insertionSort _ _
  cases hL : removable.insertionSort (fun a b => versionLe a b = true) with
  | nil =>
    rw [hL] at hlenL
    simp at hlenL
    omega
  | cons x xs =>
    have hsorted := List.sorted_insertionSort (fun a b => versionLe a b = true) removable
    rw [hL] at hsorted
    have hxmem : x ∈ removable := by
      have hx : x ∈ removable.insertionSort (fun a b => versionLe a b = true) := by
        rw [hL]
        exact List.mem_cons_self _ _
      rwa [List.mem_insertionSort] at hx
    obtain ⟨t, ht⟩ := Option.isSome_iff_exists.mp (hparse x hxmem)
    refine ⟨x, t, ?_, hxmem, ht, ?_⟩
    · rw [hres, hL]
      rfl
    · intro k hk u hu
      have hkL : k ∈ removable.insertionSort (fun a b => versionLe a b = true) := by
        rw [List.mem_insertionSort]
        exact hk
      rw [hL] at hkL
      rcases List.mem_cons.mp hkL with rfl | hk2
      · rw [ht] at hu
        simp only [Option.some.injEq] at hu
        subst hu
        exact tupLe_refl t
      · have hle : versionLe x k = true := List.rel_of_sorted_cons hsorted k hk2
        rw [versionLe_eq_tupLe ht hu] at hle
        exact hle

/-- Witness for C1 at the spec's example set: the selected kernel is "5.4.0-1". -/
theorem find_oldest_selects_minimum_wit :
    2 ≤ ((["5.4.0-1", "5.8.0-2", "5.10.0-3"] : List String).filter
      fun k => k != "5.10.0-3").length ∧
    (∃ r t,
      find_oldest_removable_kernel ["5.4.0-1", "5.8.0-2", "5.10.0-3"] "5.10.0-3" = some r ∧
      r ∈ (["5.4.0-1", "5.8.0-2", "5.10.0-3"] : List String).filter
        (fun k => k != "5.10.0-3") ∧
      parse_kernel_version r = some t ∧
      ∀ k ∈ (["5.4.0-1", "5.8.0-2", "5.10.0-3"] : List String).filter
        (fun k => k != "5.10.0-3"), ∀ u,
        parse_kernel_version k = some u → tupLe t u = true) ∧
    find_oldest_removable_kernel ["5.4.0-1", "5.8.0-2", "5.10.0-3"] "5.10.0-3" =
      some "5.4.0-1" :=
  ⟨by decide,
    find_oldest_selects_minimum ["5.4.0-1", "5.8.0-2", "5.10.0-3"] "5.10.0-3"
      (by decide) (by decide),
    by decide⟩

/-- C9: `show_status` lists exactly the discovered kernels newest-first by the
numeric tuple order, annotates exactly the entries equal to the running kernel,
reports the computed oldest-removable candidate, and performs no mutating call. -/
theorem show_status_readonly_listing (stdout current : String) :
    ∃ listing : List (String × Bool),
      show_status stdout current =
        (some (listing,
          find_oldest_removable_kernel (get_installed_kernels stdout) current),
          [Cmd.dpkgList, Cmd.dpkgList]) ∧
      (listing.map Prod.fst).Perm (get_installed_kernels stdout) ∧
      List.Pairwise (fun a b => versionLe b a = true) (listing.map Prod.fst) ∧
      (∀ p ∈ listing, p.2 = (p.1 == current)) ∧
      (∀ c ∈ (show_status stdout current).2, c.isMutating = false) := by
  haveI : IsTrans String (fun a b => versionLe b a = true) :=
    ⟨fun a b c hab hbc => versionLe_trans hbc hab⟩
  haveI : IsTotal String (fun a b => versionLe b a = true) :=
    ⟨fun a b => versionLe_total b a⟩
  have hall : (get_installed_kernels stdout).all
      (fun k => (parse_kernel_version k).isSome) = true := by
    rw [List.all_eq_true]
    intro k hk
    exact mem_discovery_parses hk
  have hsv : sortRaisesValueError (get_installed_kernels stdout) = false := by
    simp [sortRaisesValueError, hall]
  have hshow : show_status stdout current =
      (some ((((get_installed_kernels stdout).insertionSort
          (fun a b => versionLe b a = true)).map (fun k => (k, k == current))),
        find_oldest_removable_kernel (get_installed_kernels stdout) current),
       [Cmd.dpkgList, Cmd.dpkgList]) := by
    simp [show_status, hsv]
  refine ⟨_, hshow, ?_, ?_, ?_, ?_⟩
  · rw [List.map_map]
    rw [show (Prod.fst ∘ fun k => (k, k == current)) = id from rfl, List.map_id]
    exact List.perm_insertionSort _ _
  · rw [List.map_map]
    rw [show (Prod.fst ∘ fun k => (k, k == current)) = id from rfl, List.map_id]
    exact List.sorted_insertionSort _ _
  · intro p hp
    obtain ⟨k, hk, rfl⟩ := List.mem_map.mp hp
    rfl
  · intro c hc
    rw [hshow] at hc
    simp only [List.mem_cons, List.not_mem_nil, or_false] at hc
    rcases hc with rfl | rfl <;> rfl

/-- Witness for C9: on a concrete `dpkg -l` excerpt, `show_status` issues no
mutating command. -/
theorem show_status_readonly_listing_wit :
    ∀ c ∈ (show_status
        "ii  linux-image-5.4.0-26-generic  5.4.0-26.30  amd64  kernel"
        "5.4.0-26").2, c.isMutating = false := by
  obtain ⟨listing, h1, h2, h3, h4, h5⟩ := show_status_readonly_listing
    "ii  linux-image-5.4.0-26-generic  5.4.0-26.30  amd64  kernel" "5.4.0-26"
  exact h5

end KernelCleaner
